import Mathlib

set_option linter.unusedVariables false

/-
Verification of the management-zone delineation engine (src/zones.py) of the
Precision-Agriculture-Platform repository.  The Python code is shallowly
embedded over exact rational arithmetic: coordinates and yield values are
rationals and numpy arrays are lists.  The scipy/sklearn collaborators are
either reimplemented exactly (the cKDTree nearest-neighbour query is a
stable sort by squared distance) or, where the repository treats them as
black boxes (KMeans, silhouette_score, StandardScaler), abstracted as
function parameters.
-/

/-- Squared Euclidean distance between two planar points.  The scipy cKDTree
used by IDWInterpolator orders neighbours by Euclidean distance; comparing
squared distances selects the same neighbours and keeps the embedding inside
the rationals. -/
def sqDist (p q : ℚ × ℚ) : ℚ :=
  (p.1 - q.1) ^ 2 + (p.2 - q.2) ^ 2

/-- Square of the guard value 1e-10 applied to the neighbour distances at
zones.py line 77 (distances = np.maximum(distances, 1e-10)). -/
def epsSq : ℚ := 1 / 10 ^ 20

/-- IDW weight of a neighbour with squared distance s.  The source computes
1 / max(d, 1e-10) ** power on the Euclidean distance d = sqrt s (zones.py
lines 77-78); for an even power 2 * halfPower this equals
1 / max(s, (1e-10)^2) ^ halfPower exactly, which stays rational.  The
repository always uses the default power 2.0, i.e. halfPower = 1. -/
def idwWeight (halfPower : ℕ) (s : ℚ) : ℚ :=
  1 / max s epsSq ^ halfPower

/-- Indices of the fitted points ordered by ascending distance to the query
point, embedding the cKDTree.query call at zones.py lines 65-68. -/
def nearestIndices (pts : List (ℚ × ℚ)) (q : ℚ × ℚ) : List ℕ :=
  List.insertionSort
    (fun a b => sqDist q (pts.getD a (0, 0)) ≤ sqDist q (pts.getD b (0, 0)))
    (List.range pts.length)

/-- Value interpolated at one query point, embedding one row of
IDWInterpolator.predict (zones.py lines 61-86): the
k = min(max_neighbors, len(values)) nearest fitted points are retrieved and
a normalized inverse-distance weighted average of their values is returned.
The source normalizes the weights first and then sums weight * value; in
exact arithmetic this equals the quotient of the two sums used here. -/
def predictPoint (halfPower kmax : ℕ) (pts : List (ℚ × ℚ)) (vals : List ℚ)
    (q : ℚ × ℚ) : ℚ :=
  let sel := (nearestIndices pts q).take (min kmax vals.length)
  (sel.map fun j => idwWeight halfPower (sqDist q (pts.getD j (0, 0))) * vals.getD j 0).sum /
    (sel.map fun j => idwWeight halfPower (sqDist q (pts.getD j (0, 0)))).sum

/-- Error taxonomy of the specification (spec section 7) together with the
library exceptions the source actually raises.  The dedicated ValueError
raise at zones.py line 62 is the specification's NotFittedError;
valueError stands for a plain ValueError escaping from numpy (the reshape
at zones.py line 110 when the predicted values do not fill the grid shape,
and values.min() on a zero-size array at line 249); keyError is the pandas
KeyError that selecting the statistics columns from an empty zone table at
line 330 would raise.  The remaining constructors name errors the
specification promises; they let claims about errors the code never raises
be stated. -/
inductive ZoneError where
  | notFittedError
  | invalidInputError
  | insufficientDataError
  | emptyZoneError
  | keyError
  | valueError
deriving DecidableEq

/-- State of the IDWInterpolator class (zones.py lines 26-49): the power and
max_neighbors configuration plus the fitted data, both None before fit. -/
structure IDWInterpolator where
  halfPower : ℕ
  max_neighbors : ℕ
  tree : Option (List (ℚ × ℚ))
  values : Option (List ℚ)

/-- Constructor of IDWInterpolator (zones.py lines 29-38): tree and values
start as None. -/
def IDWInterpolator.init (halfPower max_neighbors : ℕ) : IDWInterpolator :=
  ⟨halfPower, max_neighbors, none, none⟩

/-- Embedding of IDWInterpolator.fit (zones.py lines 40-49): the method
stores the kd-tree over the points and the values unconditionally; the
source performs no validation of the two arrays. -/
def IDWInterpolator.fit (it : IDWInterpolator) (points : List (ℚ × ℚ))
    (values : List ℚ) : IDWInterpolator :=
  { it with tree := some points, values := some values }

/-- Index of the single nearest fitted point to a query, as returned by
cKDTree.query with k = 1 (the head of the distance-sorted index list). -/
def nearest1 (pts : List (ℚ × ℚ)) (q : ℚ × ℚ) : ℕ :=
  (nearestIndices pts q).headD 0

/-- Single value produced by predict when scipy squeezes the neighbour axis
(k = min(max_neighbors, n) = 1): cKDTree.query then returns the m per-query
nearest distances as a flat shape-(m,) array, the reshape(1, -1) at
zones.py lines 71-73 turns them into one row, and lines 77-84 combine the m
nearest-point values of the m query points into one normalized weighted
average.  For m = 0 the row is empty: the normalization divides no
elements and the final sum over the empty axis is exactly 0.0, matching the
0 that the rational 0 / 0 yields here. -/
def pooledPredict (halfPower : ℕ) (pts : List (ℚ × ℚ)) (vals : List ℚ)
    (qs : List (ℚ × ℚ)) : ℚ :=
  (qs.map fun q => idwWeight halfPower (sqDist q (pts.getD (nearest1 pts q) (0, 0))) *
      vals.getD (nearest1 pts q) 0).sum /
    (qs.map fun q => idwWeight halfPower (sqDist q (pts.getD (nearest1 pts q) (0, 0)))).sum

/-- Embedding of IDWInterpolator.predict (zones.py lines 51-86) on a list of
query points.  The raise at lines 61-62 (interpolator not fitted) is the
error case; fit always sets both fields, so tree and values are either both
None or both present.  When k = min(max_neighbors, n) is 1, scipy's query
squeezes the neighbour axis and the ndim == 1 branch at lines 71-73 makes
the whole call return the single pooled value (the length of the result is
then 1 whatever the number of query points); otherwise every query point
gets its own weighted average of its k nearest values.  A k of 0 (fit on an
empty value array or max_neighbors = 0) is rejected by scipy itself and is
not exercised by any claim, which all assume max_neighbors >= 1. -/
def IDWInterpolator.predict (it : IDWInterpolator) (qs : List (ℚ × ℚ)) :
    Except ZoneError (List ℚ) :=
  match it.tree, it.values with
  | some pts, some vals =>
      if min it.max_neighbors vals.length = 1 then
        .ok [pooledPredict it.halfPower pts vals qs]
      else
        .ok (qs.map (predictPoint it.halfPower it.max_neighbors pts vals))
  | _, _ => .error ZoneError.notFittedError

/-- Samples of np.arange(a, b, step) for step > 0: ceil((b - a) / step) many
values starting at a, and none when b ≤ a (zones.py lines 103-104). -/
def arangeQ (a b step : ℚ) : List ℚ :=
  (List.range (Int.toNat ⌈(b - a) / step⌉)).map fun i => a + (i : ℚ) * step

/-- Embedding of IDWInterpolator.interpolate_grid (zones.py lines 88-112):
the axes are np.arange(min, max, resolution), the query points are the
row-major ravel of the meshgrid (y outer, x inner), and the surface is
predict evaluated there, reshaped to the grid shape at line 110.  numpy
accepts the reshape exactly when the number of predicted values equals
rows * columns and raises a ValueError otherwise (which happens whenever
the k = 1 squeeze in predict returned a single pooled value for a grid of
any other size).  Returned as (x axis, y axis, flat surface). -/
def IDWInterpolator.interpolate_grid (it : IDWInterpolator)
    (bounds : ℚ × ℚ × ℚ × ℚ) (resolution : ℚ) :
    Except ZoneError (List ℚ × List ℚ × List ℚ) :=
  let xs := arangeQ bounds.1 bounds.2.2.1 resolution
  let ys := arangeQ bounds.2.1 bounds.2.2.2 resolution
  match it.predict (ys.flatMap fun y => xs.map fun x => (x, y)) with
  | .ok zs =>
      if zs.length = xs.length * ys.length then .ok (xs, ys, zs)
      else .error ZoneError.valueError
  | .error e => .error e

/-- C5: a freshly constructed IDWInterpolator, on which fit has not been
called, fails with the not-fitted error (the raise at zones.py lines 61-62,
the specification's NotFittedError) on every call to predict. -/
theorem c5_predict_before_fit_fails (halfPower kmax : ℕ) (qs : List (ℚ × ℚ)) :
    (IDWInterpolator.init halfPower kmax).predict qs =
      .error ZoneError.notFittedError := rfl

/-- C6 counterexample: fit called with two points and three values (lengths
disagree) raises nothing and silently stores both arrays, refuting the
claimed InvalidInputError. -/
theorem c6_counterexample :
    ((IDWInterpolator.init 1 12).fit [(0, 0), (1, 1)] [1, 2, 3]).tree =
        some [(0, 0), (1, 1)] ∧
      ((IDWInterpolator.init 1 12).fit [(0, 0), (1, 1)] [1, 2, 3]).values =
        some [1, 2, 3] := ⟨rfl, rfl⟩

/-- C6 amended: IDWInterpolator.fit performs no validation at all: it stores
the points and the values unconditionally, for mismatched and for empty
arrays alike, and never raises InvalidInputError. -/
theorem c6_fit_stores_unconditionally (it : IDWInterpolator)
    (points : List (ℚ × ℚ)) (values : List ℚ) :
    (it.fit points values).tree = some points ∧
      (it.fit points values).values = some values := ⟨rfl, rfl⟩

/-- C7: evaluation at the failing input: an interpolator fitted on two
points (so k = min(12, 2) = 2 and predict returns one value per query),
queried with the degenerate bounds (0, 0, 0, 0) at resolution 10, returns a
grid with zero columns, zero rows and an empty surface — np.arange(0, 0, 10)
is empty on both axes, predict maps the zero query points to zero values,
and the empty value array reshapes to the (0, 0) grid shape without error —
contradicting the claimed minimum of one row and one column.  (Fitted on a
single point the same bounds do not produce a 1 x 1 floor either: the k = 1
squeeze makes predict return one pooled value, which cannot be reshaped to
the empty grid, so numpy raises a ValueError at line 110 instead.) -/
theorem c7_degenerate_bounds_empty_grid :
    ((IDWInterpolator.init 1 12).fit [(0, 0), (3, 0)] [5, 7]).interpolate_grid
        (0, 0, 0, 0) 10 = .ok ([], [], []) ∧
      ((IDWInterpolator.init 1 12).fit [(0, 0)] [5]).interpolate_grid
        (0, 0, 0, 0) 10 = .error ZoneError.valueError := by
  constructor
  · norm_num [IDWInterpolator.interpolate_grid, IDWInterpolator.predict,
      IDWInterpolator.fit, IDWInterpolator.init, arangeQ]
  · norm_num [IDWInterpolator.interpolate_grid, IDWInterpolator.predict,
      IDWInterpolator.fit, IDWInterpolator.init, arangeQ]

/-- Mean of the original input values that carry zone label i, embedding
zones.py line 201 (yield_values[labels == i].mean()).  The mean of an empty
selection is 0/0 = 0 here, where numpy yields NaN; the claims below only use
this function under the hypothesis that every label is occupied. -/
def zoneMean (values : List ℚ) (labels : List ℕ) (i : ℕ) : ℚ :=
  let zs := ((labels.zip values).filter fun p => p.1 == i).map fun p => p.2
  zs.sum / (zs.length : ℚ)

/-- Labels 0 .. k-1 sorted by ascending mean of the values assigned to them,
embedding np.argsort(zone_means) at zones.py line 202. -/
def zoneOrder (values : List ℚ) (labels : List ℕ) (k : ℕ) : List ℕ :=
  List.insertionSort
    (fun a b => zoneMean values labels a ≤ zoneMean values labels b)
    (List.range k)

/-- Remapping of the cluster labels so that label 0 is the lowest-mean zone,
embedding zones.py lines 200-206: label_map sends the old label at position
new of the argsort to new, i.e. old to its index in the argsort. -/
def remapLabels (values : List ℚ) (labels : List ℕ) (k : ℕ) : List ℕ :=
  labels.map fun l => (zoneOrder values labels k).indexOf l

/-- Accumulator loop of np.argmax: scan the remaining candidates, replacing
the current best only on a strictly higher score, so the first maximizer
wins. -/
def argmaxFirst (score : ℕ → ℚ) : List ℕ → ℕ → ℕ
  | [], best => best
  | n :: rest, best => argmaxFirst score rest (if score best < score n then n else best)

/-- Embedding of ZoneDelineator._find_optimal_zones (zones.py lines
134-162) with the per-candidate silhouette computation abstracted as the
function score: every candidate count in [min_zones, max_zones] is scored
and np.argmax picks the first candidate with the highest score. -/
def findOptimalZones (score : ℕ → ℚ) (min_zones max_zones : ℕ) : ℕ :=
  match List.range' min_zones (max_zones + 1 - min_zones) with
  | [] => min_zones
  | c :: cs => argmaxFirst score cs c

/-- Configuration of the ZoneDelineator class (zones.py lines 118-132). -/
structure ZoneDelineator where
  n_zones : Option ℕ
  min_zones : ℕ
  max_zones : ℕ

/-- Zone count used by fit_predict (zones.py lines 185-193): the fixed
n_zones when given, otherwise the silhouette-selected optimum.  The
clustering and scoring collaborators (sklearn KMeans with the fixed seed,
silhouette_score) are abstracted as the function parameters cluster and
sil, applied to the standardized feature vector xs exactly as at lines
147-151. -/
def ZoneDelineator.chosenZones (d : ZoneDelineator)
    (cluster : ℕ → List ℚ → List ℕ) (sil : List ℚ → List ℕ → ℚ)
    (xs : List ℚ) : ℕ :=
  match d.n_zones with
  | some k => k
  | none => findOptimalZones (fun n => sil xs (cluster n xs)) d.min_zones d.max_zones

/-- Embedding of ZoneDelineator.fit_predict (zones.py lines 164-208) for the
yield-only feature case: the values are standardized (StandardScaler,
abstracted as the parameter standardize since its z-score involves an
irrational square root), the zone count is chosen, KMeans labels are
produced by the abstract cluster parameter, and the labels are remapped by
ascending mean of the original unstandardized values.  The repository code
adds no check of its own anywhere in this method: its result is always a
label list, never an exception of the repository's making. -/
def ZoneDelineator.fit_predict (d : ZoneDelineator)
    (standardize : List ℚ → List ℚ) (cluster : ℕ → List ℚ → List ℕ)
    (sil : List ℚ → List ℕ → ℚ) (yield_values : List ℚ) : List ℕ :=
  let xs := standardize yield_values
  let n := d.chosenZones cluster sil xs
  remapLabels yield_values (cluster n xs) n

/-- Record derived per zone by delineate_management_zones (zones.py lines
297-309), restricted to the fields the claims mention: the standard
deviation (an irrational square root) and the convex-hull geometry are not
carried. -/
structure ZoneRecord where
  zone_id : ℕ
  n_points : ℕ
  yield_mean : ℚ
  area_ha : ℚ
deriving DecidableEq

/-- Zone-record loop of delineate_management_zones (zones.py lines 272-309):
for each zone id the original points whose nearest grid cell carries that
label are collected; a zone with no points is skipped (the continue at line
295), otherwise its record is appended. -/
def buildZoneRecords (pointZones : List ℕ) (yields : List ℚ) (k : ℕ)
    (resolution : ℚ) : List ZoneRecord :=
  (List.range k).filterMap fun zid =>
    let zvals := ((pointZones.zip yields).filter fun p => p.1 == zid).map fun p => p.2
    if zvals.length = 0 then none
    else some ⟨zid, zvals.length, zvals.sum / (zvals.length : ℚ),
      (zvals.length : ℚ) * resolution * resolution / 10000⟩

/-- Result-bundle construction from the zone records (zones.py lines
311-332): the records become a GeoDataFrame and the statistics are read off
by selecting named columns.  If control reached line 311 with an empty
record list, the frame would have no columns and pandas would raise a
KeyError at line 330; the occupancy part of the C9 theorem shows that the
composed pipeline can never reach this branch, because a non-empty input
always occupies at least one zone.  No dedicated EmptyZoneError exists
anywhere in the code. -/
def buildStatistics (records : List ZoneRecord) :
    Except ZoneError (List ZoneRecord) :=
  if records.isEmpty then .error ZoneError.keyError else .ok records

/-- Failure-relevant skeleton of delineate_management_zones (zones.py lines
211-343), with the interpolation, clustering and geometry collaborators
abstracted away: the input summary at line 249 evaluates values.min() and
values.max(), which numpy rejects with a ValueError on a zero-size array,
so a zero-point input aborts there, before any zone exists; otherwise the
per-zone records are built from the per-point zone labels (each the label
of the point's nearest grid cell, hence in [0, k)) and the statistics part
of the result bundle is read from them. -/
def delineate_management_zones (pointZones : List ℕ) (yields : List ℚ)
    (k : ℕ) (resolution : ℚ) : Except ZoneError (List ZoneRecord) :=
  if yields.isEmpty then .error ZoneError.valueError
  else buildStatistics (buildZoneRecords pointZones yields k resolution)

lemma epsSq_pos : 0 < epsSq := by norm_num [epsSq]

lemma idwWeight_pos (m : ℕ) (s : ℚ) : 0 < idwWeight m s :=
  div_pos one_pos (pow_pos (lt_of_lt_of_le epsSq_pos (le_max_right s epsSq)) m)

lemma nearestIndices_perm (pts : List (ℚ × ℚ)) (q : ℚ × ℚ) :
    (nearestIndices pts q).Perm (List.range pts.length) :=
  List.perm_insertionSort _ _

lemma nearestIndices_length (pts : List (ℚ × ℚ)) (q : ℚ × ℚ) :
    (nearestIndices pts q).length = pts.length := by
  rw [(nearestIndices_perm pts q).length_eq, List.length_range]

lemma mem_nearestIndices {pts : List (ℚ × ℚ)} {q : ℚ × ℚ} {j : ℕ} :
    j ∈ nearestIndices pts q ↔ j < pts.length := by
  rw [(nearestIndices_perm pts q).mem_iff, List.mem_range]

lemma sum_map_pos {l : List ℕ} {w : ℕ → ℚ} (hw : ∀ j ∈ l, 0 < w j)
    (hne : l ≠ []) : 0 < (l.map w).sum := by
  apply List.sum_pos
  · intro x hx
    obtain ⟨j, hj, rfl⟩ := List.mem_map.mp hx
    exact hw j hj
  · simpa using hne

lemma sum_div_sum_le (l : List ℕ) (w v : ℕ → ℚ) (hi : ℚ)
    (hw : ∀ j ∈ l, 0 < w j) (hv : ∀ j ∈ l, v j ≤ hi) (hne : l ≠ []) :
    (l.map fun j => w j * v j).sum / (l.map w).sum ≤ hi := by
  rw [div_le_iff₀ (sum_map_pos hw hne)]
  calc (l.map fun j => w j * v j).sum
      ≤ (l.map fun j => w j * hi).sum :=
        List.sum_le_sum fun j hj => mul_le_mul_of_nonneg_left (hv j hj) (hw j hj).le
    _ = (l.map w).sum * hi := List.sum_map_mul_right l w hi
    _ = hi * (l.map w).sum := mul_comm _ _

lemma le_sum_div_sum (l : List ℕ) (w v : ℕ → ℚ) (lo : ℚ)
    (hw : ∀ j ∈ l, 0 < w j) (hv : ∀ j ∈ l, lo ≤ v j) (hne : l ≠ []) :
    lo ≤ (l.map fun j => w j * v j).sum / (l.map w).sum := by
  rw [le_div_iff₀ (sum_map_pos hw hne)]
  calc lo * (l.map w).sum = (l.map w).sum * lo := mul_comm _ _
    _ = (l.map fun j => w j * lo).sum := (List.sum_map_mul_right l w lo).symm
    _ ≤ (l.map fun j => w j * v j).sum :=
        List.sum_le_sum fun j hj => mul_le_mul_of_nonneg_left (hv j hj) (hw j hj).le

lemma predictPoint_sel_length (kmax : ℕ) (pts : List (ℚ × ℚ))
    (vals : List ℚ) (q : ℚ × ℚ) (hlen : pts.length = vals.length) :
    ((nearestIndices pts q).take (min kmax vals.length)).length =
      min kmax vals.length := by
  rw [List.length_take, nearestIndices_length, hlen]
  omega

/-- C2: for an IDWInterpolator fitted on n >= 1 points (with max_neighbors
at least 1, as scipy requires of the k passed to cKDTree.query) and any
query point, the predicted value is a convex combination of fitted values
and hence lies within any interval [lo, hi] containing all fitted values;
instantiating lo and hi with the minimum and maximum of the fitted set gives
the claim. -/
theorem c2_idw_bounded (halfPower kmax : ℕ) (pts : List (ℚ × ℚ))
    (vals : List ℚ) (q : ℚ × ℚ) (lo hi : ℚ)
    (hne : vals ≠ []) (hlen : pts.length = vals.length) (hk : 1 ≤ kmax)
    (hlo : ∀ v ∈ vals, lo ≤ v) (hhi : ∀ v ∈ vals, v ≤ hi) :
    lo ≤ predictPoint halfPower kmax pts vals q ∧
      predictPoint halfPower kmax pts vals q ≤ hi := by
  have hpos : 0 < vals.length := List.length_pos.mpr hne
  have hselne : (nearestIndices pts q).take (min kmax vals.length) ≠ [] := by
    intro hcon
    have := predictPoint_sel_length kmax pts vals q hlen
    rw [hcon] at this
    simp at this
    omega
  have hsub : ∀ j ∈ (nearestIndices pts q).take (min kmax vals.length),
      j < vals.length := by
    intro j hj
    have := mem_nearestIndices.mp (List.take_subset _ _ hj)
    omega
  have hvmem : ∀ j ∈ (nearestIndices pts q).take (min kmax vals.length),
      vals.getD j 0 ∈ vals := by
    intro j hj
    rw [List.getD_eq_getElem vals 0 (hsub j hj)]
    exact List.getElem_mem _
  simp only [predictPoint]
  exact ⟨le_sum_div_sum _ _ _ lo (fun j _ => idwWeight_pos _ _)
      (fun j hj => hlo _ (hvmem j hj)) hselne,
    sum_div_sum_le _ _ _ hi (fun j _ => idwWeight_pos _ _)
      (fun j hj => hhi _ (hvmem j hj)) hselne⟩

/-- C2 witness: the general boundedness theorem applied to a concrete
two-point data set and query. -/
theorem c2_idw_bounded_witness :
    (([10, 20] : List ℚ) ≠ [] ∧ (1 : ℕ) ≤ 12 ∧
        (∀ v ∈ ([10, 20] : List ℚ), 10 ≤ v) ∧
        (∀ v ∈ ([10, 20] : List ℚ), v ≤ 20)) ∧
      10 ≤ predictPoint 1 12 [(0, 0), (1, 0)] [10, 20] (5, 5) ∧
        predictPoint 1 12 [(0, 0), (1, 0)] [10, 20] (5, 5) ≤ 20 :=
  ⟨⟨by simp, by norm_num, by norm_num, by norm_num⟩,
    c2_idw_bounded 1 12 [(0, 0), (1, 0)] [10, 20] (5, 5) 10 20
      (by simp) rfl (by norm_num) (by norm_num) (by norm_num)⟩

/-- C10: an IDWInterpolator fitted on exactly one point predicts exactly
that point's value at every query point, for every power and every
max_neighbors of at least 1: the single neighbour's normalized weight is
w / w = 1. -/
theorem c10_single_point_exact (halfPower kmax : ℕ) (p : ℚ × ℚ) (v : ℚ)
    (q : ℚ × ℚ) (hk : 1 ≤ kmax) :
    predictPoint halfPower kmax [p] [v] q = v := by
  have h1 : min kmax 1 = 1 := by omega
  have hw : idwWeight halfPower (sqDist q p) ≠ 0 := (idwWeight_pos _ _).ne'
  simp [predictPoint, nearestIndices, h1]
  exact mul_div_cancel_left₀ v hw

/-- C10 witness: the single-point theorem applied to a concrete fitted point
and a distant query. -/
theorem c10_single_point_exact_witness :
    (1 : ℕ) ≤ 12 ∧ predictPoint 1 12 [(3, 4)] [7] (100, 5) = 7 :=
  ⟨by norm_num, c10_single_point_exact 1 12 (3, 4) 7 (100, 5) (by norm_num)⟩

lemma argmaxFirst_spec (score : ℕ → ℚ) :
    ∀ (l : List ℕ) (b : ℕ), List.Pairwise (· < ·) (b :: l) →
      (argmaxFirst score l b = b ∨ argmaxFirst score l b ∈ l) ∧
        score b ≤ score (argmaxFirst score l b) ∧
        (∀ n ∈ l, score n ≤ score (argmaxFirst score l b)) ∧
        (argmaxFirst score l b ≠ b → score b < score (argmaxFirst score l b)) ∧
        (∀ n ∈ l, score n = score (argmaxFirst score l b) →
          argmaxFirst score l b = b ∨ argmaxFirst score l b ≤ n) := by
  intro l
  induction l with
  | nil =>
      intro b _
      refine ⟨Or.inl rfl, le_refl _, ?_, ?_, ?_⟩ <;> simp [argmaxFirst]
  | cons n rest ih =>
      intro b hpw
      have hbn : b < n := (List.pairwise_cons.mp hpw).1 n (List.mem_cons_self n rest)
      have hbrest : ∀ m ∈ rest, b < m := fun m hm =>
        (List.pairwise_cons.mp hpw).1 m (List.mem_cons_of_mem n hm)
      have hpw' : List.Pairwise (· < ·) (n :: rest) := (List.pairwise_cons.mp hpw).2
      have hnrest : ∀ m ∈ rest, n < m := (List.pairwise_cons.mp hpw').1
      have hnm : n ∉ rest := fun hc => lt_irrefl n (hnrest n hc)
      by_cases hlt : score b < score n
      · have heq : argmaxFirst score (n :: rest) b = argmaxFirst score rest n := by
          simp [argmaxFirst, hlt]
        have ihn := ih n hpw'
        set r := argmaxFirst score rest n with hr
        rw [heq]
        obtain ⟨i1, i2, i3, i4, i5⟩ := ihn
        refine ⟨?_, ?_, ?_, ?_, ?_⟩
        · rcases i1 with h | h
          · exact Or.inr (h ▸ List.mem_cons_self n rest)
          · exact Or.inr (List.mem_cons_of_mem n h)
        · exact le_trans hlt.le i2
        · intro m hm
          rcases List.mem_cons.mp hm with rfl | hm'
          · exact i2
          · exact i3 m hm'
        · intro _
          exact lt_of_lt_of_le hlt i2
        · intro m hm hsc
          rcases List.mem_cons.mp hm with rfl | hm'
          · rcases i1 with h | h
            · exact Or.inr (le_of_eq h)
            · exfalso
              have hrn : r ≠ m := fun hc => hnm (hc ▸ h)
              exact absurd hsc (ne_of_gt (i4 hrn)).symm
          · rcases i5 m hm' hsc with h | h
            · exact Or.inr (h ▸ (hnrest m hm').le)
            · exact Or.inr h
      · have heq : argmaxFirst score (n :: rest) b = argmaxFirst score rest b := by
          simp [argmaxFirst, hlt]
        have hpwb : List.Pairwise (· < ·) (b :: rest) :=
          List.pairwise_cons.mpr ⟨hbrest, (List.pairwise_cons.mp hpw').2⟩
        have ihb := ih b hpwb
        set r := argmaxFirst score rest b with hr
        rw [heq]
        obtain ⟨i1, i2, i3, i4, i5⟩ := ihb
        have hnb : score n ≤ score b := not_lt.mp hlt
        refine ⟨?_, i2, ?_, i4, ?_⟩
        · rcases i1 with h | h
          · exact Or.inl h
          · exact Or.inr (List.mem_cons_of_mem n h)
        · intro m hm
          rcases List.mem_cons.mp hm with rfl | hm'
          · exact le_trans hnb i2
          · exact i3 m hm'
        · intro m hm hsc
          rcases List.mem_cons.mp hm with rfl | hm'
          · by_cases hrb : r = b
            · exact Or.inl hrb
            · exfalso
              have : score b < score r := i4 hrb
              have : score m < score r := lt_of_le_of_lt hnb this
              exact absurd hsc (ne_of_gt this).symm
          · exact i5 m hm' hsc

/-- C8: when n_zones is unspecified, the selection over the candidate range
[min_zones, max_zones] returns a candidate whose score is maximal, ties
broken by the smallest candidate (np.argmax takes the first maximum, and the
candidate list is increasing); with min_zones = max_zones the single
candidate is returned regardless of the scores.  The score function is the
mean silhouette of the partition produced for each candidate, exactly as it
is applied inside ZoneDelineator.chosenZones. -/
theorem c8_silhouette_selection (score : ℕ → ℚ) (minz maxz : ℕ)
    (hle : minz ≤ maxz) :
    (minz ≤ findOptimalZones score minz maxz ∧
        findOptimalZones score minz maxz ≤ maxz) ∧
      (∀ n, minz ≤ n → n ≤ maxz →
        score n ≤ score (findOptimalZones score minz maxz)) ∧
      (∀ n, minz ≤ n → n ≤ maxz →
        score n = score (findOptimalZones score minz maxz) →
        findOptimalZones score minz maxz ≤ n) ∧
      (minz = maxz → findOptimalZones score minz maxz = minz) := by
  have hlen : maxz + 1 - minz = (maxz - minz) + 1 := by omega
  have hcand : List.range' minz (maxz + 1 - minz) =
      minz :: List.range' (minz + 1) (maxz - minz) := by
    rw [hlen, List.range'_succ]
  have heq : findOptimalZones score minz maxz =
      argmaxFirst score (List.range' (minz + 1) (maxz - minz)) minz := by
    rw [findOptimalZones, hcand]
  have hpw : List.Pairwise (· < ·)
      (minz :: List.range' (minz + 1) (maxz - minz)) := by
    rw [← hcand, hlen]
    exact List.pairwise_lt_range' minz ((maxz - minz) + 1)
  obtain ⟨i1, i2, i3, i4, i5⟩ :=
    argmaxFirst_spec score (List.range' (minz + 1) (maxz - minz)) minz hpw
  rw [heq]
  set r := argmaxFirst score (List.range' (minz + 1) (maxz - minz)) minz with hr
  have hmem : ∀ m, m ∈ List.range' (minz + 1) (maxz - minz) ↔
      minz + 1 ≤ m ∧ m ≤ maxz := by
    intro m
    rw [List.mem_range'_1]
    omega
  refine ⟨?_, ?_, ?_, ?_⟩
  · rcases i1 with h | h
    · omega
    · have := (hmem r).mp h
      omega
  · intro n hn1 hn2
    rcases eq_or_lt_of_le hn1 with rfl | hgt
    · exact i2
    · exact i3 n ((hmem n).mpr ⟨hgt, hn2⟩)
  · intro n hn1 hn2 hsc
    rcases eq_or_lt_of_le hn1 with rfl | hgt
    · rcases i1 with h | h
      · omega
      · by_cases hrb : r = minz
        · omega
        · exact absurd hsc.symm (ne_of_gt (i4 hrb))
    · rcases i5 n ((hmem n).mpr ⟨hgt, hn2⟩) hsc with h | h
      · have := (hmem n).mpr ⟨hgt, hn2⟩
        omega
      · exact h
  · intro hmm
    have : maxz - minz = 0 := by omega
    rw [hr, this]
    simp [argmaxFirst]

/-- C8 witness: the selection theorem applied to the degenerate search range
min_zones = max_zones = 2 with a score function that would prefer a larger
count if one were available. -/
theorem c8_silhouette_selection_witness :
    (2 : ℕ) ≤ 2 ∧ ((2 = 2 → findOptimalZones (fun n => (n : ℚ)) 2 2 = 2)) :=
  ⟨le_refl 2, (c8_silhouette_selection (fun n => (n : ℚ)) 2 2 (le_refl 2)).2.2.2⟩

lemma zoneOrder_perm (values : List ℚ) (labels : List ℕ) (k : ℕ) :
    (zoneOrder values labels k).Perm (List.range k) :=
  List.perm_insertionSort _ _

lemma zoneOrder_length (values : List ℚ) (labels : List ℕ) (k : ℕ) :
    (zoneOrder values labels k).length = k := by
  rw [(zoneOrder_perm values labels k).length_eq, List.length_range]

lemma zoneOrder_nodup (values : List ℚ) (labels : List ℕ) (k : ℕ) :
    (zoneOrder values labels k).Nodup :=
  ((zoneOrder_perm values labels k).nodup_iff).mpr (List.nodup_range k)

lemma mem_zoneOrder {values : List ℚ} {labels : List ℕ} {k l : ℕ} :
    l ∈ zoneOrder values labels k ↔ l < k := by
  rw [(zoneOrder_perm values labels k).mem_iff, List.mem_range]

lemma zoneOrder_sorted (values : List ℚ) (labels : List ℕ) (k : ℕ) :
    List.Sorted (fun a b => zoneMean values labels a ≤ zoneMean values labels b)
      (zoneOrder values labels k) := by
  haveI : IsTotal ℕ (fun a b => zoneMean values labels a ≤ zoneMean values labels b) :=
    ⟨fun a b => le_total _ _⟩
  haveI : IsTrans ℕ (fun a b => zoneMean values labels a ≤ zoneMean values labels b) :=
    ⟨fun _ _ _ hab hbc => le_trans hab hbc⟩
  exact List.sorted_insertionSort _ _

lemma indexOf_zoneOrder (values : List ℚ) (labels : List ℕ) (k : ℕ)
    {l i : ℕ} (hl : l < k) (hik : i < (zoneOrder values labels k).length) :
    (zoneOrder values labels k).indexOf l = i ↔
      l = (zoneOrder values labels k).getD i 0 := by
  have hmem : l ∈ zoneOrder values labels k := mem_zoneOrder.mpr hl
  have hidx : (zoneOrder values labels k).indexOf l <
      (zoneOrder values labels k).length := List.indexOf_lt_length.mpr hmem
  rw [List.getD_eq_getElem _ _ hik]
  constructor
  · intro h
    subst h
    exact (List.getElem_indexOf hik).symm
  · intro h
    have h2 : (zoneOrder values labels k).get
          ⟨(zoneOrder values labels k).indexOf l, hidx⟩ =
        (zoneOrder values labels k).get ⟨i, hik⟩ := by
      rw [List.indexOf_get hidx, List.get_eq_getElem]
      exact h
    exact congrArg Fin.val
      (((zoneOrder_nodup values labels k).get_inj_iff).mp h2)

lemma remap_filter_eq (values : List ℚ) (labels : List ℕ) (k i : ℕ)
    (hik : i < k) (hlab : ∀ l ∈ labels, l < k) :
    ((labels.map fun l => (zoneOrder values labels k).indexOf l).zip values).filter
        (fun p => p.1 == i) =
      ((labels.zip values).filter
          (fun p => p.1 == (zoneOrder values labels k).getD i 0)).map
        (Prod.map (fun l => (zoneOrder values labels k).indexOf l) id) := by
  have hik' : i < (zoneOrder values labels k).length := by
    rw [zoneOrder_length]
    exact hik
  rw [List.zip_map_left, List.filter_map]
  congr 1
  apply List.filter_congr
  intro p hp
  have hp1 : p.1 ∈ labels := by
    obtain ⟨a, b⟩ := p
    exact (List.of_mem_zip hp).1
  have hiff := indexOf_zoneOrder values labels k (hlab p.1 hp1) hik'
  show ((zoneOrder values labels k).indexOf p.1 == i) =
    (p.1 == (zoneOrder values labels k).getD i 0)
  rw [Bool.eq_iff_iff]
  simp only [beq_iff_eq]
  exact hiff

lemma zoneMean_remap (values : List ℚ) (labels : List ℕ) (k i : ℕ)
    (hik : i < k) (hlab : ∀ l ∈ labels, l < k) :
    zoneMean values (remapLabels values labels k) i =
      zoneMean values labels ((zoneOrder values labels k).getD i 0) := by
  simp only [zoneMean, remapLabels]
  rw [remap_filter_eq values labels k i hik hlab, List.map_map]
  rfl

lemma zoneOrder_getD_mono (values : List ℚ) (labels : List ℕ) (k i : ℕ)
    (h : i + 1 < k) :
    zoneMean values labels ((zoneOrder values labels k).getD i 0) ≤
      zoneMean values labels ((zoneOrder values labels k).getD (i + 1) 0) := by
  have hlen := zoneOrder_length values labels k
  have h1 : i < (zoneOrder values labels k).length := by omega
  have h2 : i + 1 < (zoneOrder values labels k).length := by omega
  rw [List.getD_eq_getElem _ _ h1, List.getD_eq_getElem _ _ h2]
  have hs := zoneOrder_sorted values labels k
  have := hs.rel_get_of_lt (a := ⟨i, h1⟩) (b := ⟨i + 1, h2⟩)
    (by simp [Fin.mk_lt_mk])
  simpa using this

/-- C1: every call of ZoneDelineator.fit_predict that partitions the input
into k >= 2 occupied zones returns labels remapped so that the mean of the
original (unstandardized) input values assigned label i is at most the mean
of those assigned label i + 1, for every valid i: label 0 is the
lowest-mean zone and label k - 1 the highest.  Here k is the zone count
fit_predict uses and the raw k-means labels are the output of the abstract
clustering collaborator; the occupancy hypothesis states that the
clustering produced k nonempty zones (sklearn k-means labels are onto
[0, k), and an empty selection would make numpy return NaN as its mean,
which the rational embedding cannot represent). -/
theorem c1_labels_ordered_by_mean (d : ZoneDelineator)
    (standardize : List ℚ → List ℚ) (cluster : ℕ → List ℚ → List ℕ)
    (sil : List ℚ → List ℕ → ℚ) (yield_values : List ℚ) (i : ℕ)
    (hlen : (cluster (d.chosenZones cluster sil (standardize yield_values))
        (standardize yield_values)).length = yield_values.length)
    (hlab : ∀ l ∈ cluster (d.chosenZones cluster sil (standardize yield_values))
        (standardize yield_values),
      l < d.chosenZones cluster sil (standardize yield_values))
    (hocc : ∀ j, j < d.chosenZones cluster sil (standardize yield_values) →
      j ∈ cluster (d.chosenZones cluster sil (standardize yield_values))
        (standardize yield_values))
    (hi : i + 1 < d.chosenZones cluster sil (standardize yield_values)) :
    zoneMean yield_values (d.fit_predict standardize cluster sil yield_values) i ≤
      zoneMean yield_values (d.fit_predict standardize cluster sil yield_values)
        (i + 1) := by
  have heq : d.fit_predict standardize cluster sil yield_values =
      remapLabels yield_values
        (cluster (d.chosenZones cluster sil (standardize yield_values))
          (standardize yield_values))
        (d.chosenZones cluster sil (standardize yield_values)) := rfl
  rw [heq, zoneMean_remap _ _ _ _ (by omega) hlab,
    zoneMean_remap _ _ _ _ hi hlab]
  exact zoneOrder_getD_mono _ _ _ _ hi

/-- Clustering stand-in used to instantiate the abstract k-means
collaborator in concrete witnesses: four samples split into two zones. -/
def clusterW : ℕ → List ℚ → List ℕ := fun _ _ => [0, 1, 0, 1]

/-- C1 witness: the ordering theorem applied to a concrete four-point input
with a fixed zone count of 2. -/
theorem c1_labels_ordered_by_mean_witness :
    ((clusterW 2 [5, 1, 3, 1]).length = 4 ∧
        (∀ l ∈ clusterW 2 [5, 1, 3, 1], l < 2) ∧
        (∀ j, j < 2 → j ∈ clusterW 2 [5, 1, 3, 1]) ∧ (0 : ℕ) + 1 < 2) ∧
      zoneMean [5, 1, 3, 1]
          (ZoneDelineator.fit_predict ⟨some 2, 2, 7⟩ id clusterW
            (fun _ _ => 0) [5, 1, 3, 1]) 0 ≤
        zoneMean [5, 1, 3, 1]
          (ZoneDelineator.fit_predict ⟨some 2, 2, 7⟩ id clusterW
            (fun _ _ => 0) [5, 1, 3, 1]) 1 :=
  ⟨⟨by decide, by decide, by decide, by decide⟩,
    c1_labels_ordered_by_mean ⟨some 2, 2, 7⟩ id clusterW (fun _ _ => 0)
      [5, 1, 3, 1] 0 (by decide) (by decide) (by decide) (by decide)⟩

/-- C4 amended: ZoneDelineator.fit_predict contains no distinct-value check
and no failure path of its own: whenever the clustering collaborator
returns one label per sample (as sklearn KMeans does when it runs), the
method returns one remapped label per input value — also when the number of
distinct input values is smaller than max_zones, where the specification
promises InsufficientDataError. -/
theorem c4_no_insufficient_data_check (d : ZoneDelineator)
    (standardize : List ℚ → List ℚ) (cluster : ℕ → List ℚ → List ℕ)
    (sil : List ℚ → List ℕ → ℚ) (yield_values : List ℚ)
    (hc : ∀ n xs, (cluster n xs).length = xs.length)
    (hs : ∀ xs, (standardize xs).length = xs.length) :
    (d.fit_predict standardize cluster sil yield_values).length =
      yield_values.length := by
  simp [ZoneDelineator.fit_predict, remapLabels, hc, hs]

/-- Clustering stand-in used to instantiate the abstract k-means
collaborator for the C4 refutation: each sample is assigned the rank of its
value among the three distinct values 1, 2, 3, capped at n - 1.  This
mirrors what sklearn KMeans produces on ten samples with three distinct
values: for every candidate count in [2, 7] the library call succeeds (a
convergence warning for counts above 3 is suppressed by the
warnings.filterwarnings call at zones.py line 23) and labels every
sample. -/
def clusterC4 (n : ℕ) (xs : List ℚ) : List ℕ :=
  xs.map fun x => min (if x < 3 / 2 then 0 else if x < 5 / 2 then 1 else 2) (n - 1)

/-- C4 counterexample: in auto-selection mode with the default range [2, 7],
on ten values taking only three distinct values (3 < max_zones = 7),
fit_predict returns a full label vector instead of failing: no
InsufficientDataError check exists anywhere in the code. -/
theorem c4_counterexample :
    (∀ v ∈ ([1, 1, 1, 2, 2, 2, 3, 3, 3, 3] : List ℚ), v ∈ ([1, 2, 3] : List ℚ)) ∧
      ([1, 2, 3] : List ℚ).length = 3 ∧ (3 : ℕ) < 7 ∧
      ZoneDelineator.fit_predict ⟨none, 2, 7⟩ id clusterC4 (fun _ _ => 0)
        [1, 1, 1, 2, 2, 2, 3, 3, 3, 3] = [0, 0, 0, 1, 1, 1, 1, 1, 1, 1] := by
  refine ⟨by norm_num, rfl, by norm_num, ?_⟩
  norm_num [ZoneDelineator.fit_predict, ZoneDelineator.chosenZones, clusterC4,
    findOptimalZones, argmaxFirst, List.range',
    remapLabels, zoneOrder, zoneMean, List.range_succ, List.indexOf,
    List.findIdx, List.findIdx.go]
  decide

/-- C4 witness for the amended theorem: applied to the concrete
counterexample input, fit_predict returns exactly one label per input
value. -/
theorem c4_no_insufficient_data_check_witness :
    (∀ n xs, (clusterC4 n xs).length = xs.length) ∧
      (ZoneDelineator.fit_predict ⟨none, 2, 7⟩ id clusterC4 (fun _ _ => 0)
        [1, 1, 1, 2, 2, 2, 3, 3, 3, 3]).length = 10 := by
  refine ⟨fun n xs => by simp [clusterC4], ?_⟩
  rw [c4_no_insufficient_data_check ⟨none, 2, 7⟩ id clusterC4 (fun _ _ => 0)
    [1, 1, 1, 2, 2, 2, 3, 3, 3, 3] (fun n xs => by simp [clusterC4])
    (fun xs => rfl)]
  rfl

lemma map_filterMap_eq_filter {β : Type} (F : ℕ → Option β) (g : β → ℕ)
    (c : ℕ → Bool) (hnone : ∀ a, c a = true → F a = none)
    (hsome : ∀ a, c a = false → ∃ r, F a = some r ∧ g r = a) (L : List ℕ) :
    (L.filterMap F).map g = L.filter fun a => !(c a) := by
  induction L with
  | nil => rfl
  | cons a L ih =>
      cases hc : c a
      · obtain ⟨r, hr, hg⟩ := hsome a hc
        rw [List.filterMap_cons_some hr, List.map_cons, hg, List.filter_cons, ih]
        simp [hc]
      · rw [List.filterMap_cons_none (hnone a hc), List.filter_cons, ih]
        simp [hc]

lemma zoneRecords_map_id (pointZones : List ℕ) (yields : List ℚ) (k : ℕ)
    (resolution : ℚ) :
    (buildZoneRecords pointZones yields k resolution).map (fun r => r.zone_id) =
      (List.range k).filter fun zid =>
        !((pointZones.zip yields).filter fun p => p.1 == zid).isEmpty := by
  unfold buildZoneRecords
  apply map_filterMap_eq_filter
  · intro a hc
    have hnil : ((pointZones.zip yields).filter fun p => p.1 == a) = [] :=
      List.isEmpty_eq_true.mp hc
    have hlen : ((((pointZones.zip yields).filter fun p => p.1 == a).map
        fun p => p.2).length = 0) := by
      rw [List.length_map, List.length_eq_zero]
      exact hnil
    exact if_pos hlen
  · intro a hc
    have hne : ((pointZones.zip yields).filter fun p => p.1 == a) ≠ [] :=
      List.isEmpty_eq_false.mp hc
    have hlen : ¬ ((((pointZones.zip yields).filter fun p => p.1 == a).map
        fun p => p.2).length = 0) := by
      rw [List.length_map, List.length_eq_zero]
      exact hne
    exact ⟨_, if_neg hlen, rfl⟩

/-- C9 amended: the zone-record loop silently drops each individually empty
zone (the continue at zones.py line 295), so the produced records are
exactly the occupied labels in ascending order; the only way every zone
label can end up with zero assigned points is a zero-point input, and
there delineate_management_zones fails fatally before the zone stage, with
the numpy ValueError from values.min() on an empty array at line 249 — not
with a dedicated EmptyZoneError, which does not exist in the code; and for
every non-empty input whose per-point labels lie in [0, k), as the
nearest-grid-cell assignment guarantees, at least one zone is occupied and
a complete bundle is returned, so the all-empty case never reaches the
record loop or the statistics construction. -/
theorem c9_empty_zones (pointZones : List ℕ) (yields : List ℚ) (k : ℕ)
    (resolution : ℚ) :
    (yields = [] →
        delineate_management_zones pointZones yields k resolution =
          .error ZoneError.valueError) ∧
      ((buildZoneRecords pointZones yields k resolution).map (fun r => r.zone_id) =
        (List.range k).filter fun zid =>
          !((pointZones.zip yields).filter fun p => p.1 == zid).isEmpty) ∧
      (yields ≠ [] → pointZones.length = yields.length →
        (∀ z ∈ pointZones, z < k) →
        buildZoneRecords pointZones yields k resolution ≠ [] ∧
          delineate_management_zones pointZones yields k resolution =
            .ok (buildZoneRecords pointZones yields k resolution)) := by
  refine ⟨?_, zoneRecords_map_id pointZones yields k resolution, ?_⟩
  · intro h
    subst h
    rfl
  · intro hne hlen hlt
    have hplen : 0 < pointZones.length := by
      rw [hlen]
      exact List.length_pos.mpr hne
    obtain ⟨z, pzs, hpz⟩ : ∃ z pzs, pointZones = z :: pzs := by
      cases pointZones with
      | nil => simp at hplen
      | cons a l => exact ⟨a, l, rfl⟩
    obtain ⟨y, ys, hys⟩ : ∃ y ys, yields = y :: ys := by
      cases yields with
      | nil => exact absurd rfl hne
      | cons a l => exact ⟨a, l, rfl⟩
    have hzk : z < k := hlt z (by rw [hpz]; exact List.mem_cons_self z pzs)
    have hmemfil : (z, y) ∈ (pointZones.zip yields).filter fun p => p.1 == z := by
      rw [hpz, hys]
      simp [List.zip_cons_cons, List.filter_cons]
    have hfne : ((pointZones.zip yields).filter fun p => p.1 == z) ≠ [] :=
      List.ne_nil_of_mem hmemfil
    have hrec_ne : buildZoneRecords pointZones yields k resolution ≠ [] := by
      intro hcon
      have hmap := zoneRecords_map_id pointZones yields k resolution
      rw [hcon] at hmap
      have hzin : z ∈ (List.range k).filter fun zid =>
          !((pointZones.zip yields).filter fun p => p.1 == zid).isEmpty := by
        rw [List.mem_filter]
        exact ⟨List.mem_range.mpr hzk, by simp [List.isEmpty_eq_false.mpr hfne]⟩
      rw [← hmap] at hzin
      cases hzin
    refine ⟨hrec_ne, ?_⟩
    rw [delineate_management_zones, List.isEmpty_eq_false.mpr hne]
    simp only [Bool.false_eq_true, if_false]
    rw [buildStatistics, List.isEmpty_eq_false.mpr hrec_ne]
    rfl

/-- C9 counterexample: at the only input class where every zone label ends
up with zero assigned points — zero input points — the call fails with the
numpy ValueError from the input summary at zones.py line 249, which is not
an EmptyZoneError-class failure. -/
theorem c9_counterexample :
    delineate_management_zones [] [] 2 10 = .error ZoneError.valueError ∧
      ZoneError.valueError ≠ ZoneError.emptyZoneError :=
  ⟨rfl, by decide⟩

/-- C9 witness: the amended theorem applied to the zero-point input (where
the pipeline aborts at the input summary) and to a concrete two-point,
two-zone input (where both zones are occupied and the bundle is
returned). -/
theorem c9_empty_zones_witness :
    (([] : List ℚ) = [] ∧
        delineate_management_zones [] [] 2 10 = .error ZoneError.valueError) ∧
      (([5, 7] : List ℚ) ≠ [] ∧ (∀ z ∈ [0, 1], z < 2) ∧
        buildZoneRecords [0, 1] [5, 7] 2 10 ≠ [] ∧
        delineate_management_zones [0, 1] [5, 7] 2 10 =
          .ok (buildZoneRecords [0, 1] [5, 7] 2 10)) :=
  ⟨⟨rfl, (c9_empty_zones [] [] 2 10).1 rfl⟩,
    ⟨by simp, by decide,
      ((c9_empty_zones [0, 1] [5, 7] 2 10).2.2 (by simp) rfl (by decide)).1,
      ((c9_empty_zones [0, 1] [5, 7] 2 10).2.2 (by simp) rfl (by decide)).2⟩⟩

lemma sqDist_self (p : ℚ × ℚ) : sqDist p p = 0 := by
  simp [sqDist]

lemma idwWeight_zero (m : ℕ) : idwWeight m 0 = 1 / epsSq ^ m := by
  unfold idwWeight
  rw [max_eq_right epsSq_pos.le]

lemma idwWeight_le (m : ℕ) {s δ : ℚ} (hδ : 0 < δ) (hs : δ ≤ s) :
    idwWeight m s ≤ 1 / δ ^ m := by
  unfold idwWeight
  apply one_div_le_one_div_of_le (pow_pos hδ m)
  exact pow_le_pow_left₀ hδ.le (le_trans hs (le_max_left s epsSq)) m

lemma nearestIndices_nodup (pts : List (ℚ × ℚ)) (q : ℚ × ℚ) :
    (nearestIndices pts q).Nodup :=
  ((nearestIndices_perm pts q).nodup_iff).mpr (List.nodup_range _)

lemma nearestIndices_sorted (pts : List (ℚ × ℚ)) (q : ℚ × ℚ) :
    List.Sorted
      (fun a b => sqDist q (pts.getD a (0, 0)) ≤ sqDist q (pts.getD b (0, 0)))
      (nearestIndices pts q) := by
  haveI : IsTotal ℕ
      (fun a b => sqDist q (pts.getD a (0, 0)) ≤ sqDist q (pts.getD b (0, 0))) :=
    ⟨fun a b => le_total _ _⟩
  haveI : IsTrans ℕ
      (fun a b => sqDist q (pts.getD a (0, 0)) ≤ sqDist q (pts.getD b (0, 0))) :=
    ⟨fun _ _ _ hab hbc => le_trans hab hbc⟩
  exact List.sorted_insertionSort _ _

lemma nearestIndices_head (pts : List (ℚ × ℚ)) (i : ℕ) (δ : ℚ)
    (hiL : i < pts.length) (hδ : 0 < δ)
    (hsep : ∀ j, j < pts.length → j ≠ i →
      δ ≤ sqDist (pts.getD i (0, 0)) (pts.getD j (0, 0))) :
    ∃ t, nearestIndices pts (pts.getD i (0, 0)) = i :: t := by
  have hmem : i ∈ nearestIndices pts (pts.getD i (0, 0)) :=
    mem_nearestIndices.mpr hiL
  have hsorted := nearestIndices_sorted pts (pts.getD i (0, 0))
  cases hSe : nearestIndices pts (pts.getD i (0, 0)) with
  | nil => rw [hSe] at hmem; cases hmem
  | cons h t =>
      refine ⟨t, ?_⟩
      by_cases hhi : h = i
      · rw [hhi]
      · exfalso
        have hhL : h < pts.length := by
          have : h ∈ nearestIndices pts (pts.getD i (0, 0)) := by
            rw [hSe]; exact List.mem_cons_self h t
          exact mem_nearestIndices.mp this
        have hit : i ∈ t := by
          rw [hSe] at hmem
          rcases List.mem_cons.mp hmem with h' | h'
          · exact absurd h'.symm hhi
          · exact h'
        rw [hSe] at hsorted
        have hle := (List.sorted_cons.mp hsorted).1 i hit
        rw [sqDist_self] at hle
        have hδh := hsep h hhL hhi
        linarith

lemma sum_map_sub (l : List ℕ) (f g : ℕ → ℚ) :
    (l.map fun j => f j - g j).sum = (l.map f).sum - (l.map g).sum := by
  induction l with
  | nil => simp
  | cons a l ih =>
      simp only [List.map_cons, List.sum_cons, ih]
      ring

lemma sum_map_le_length_mul (l : List ℕ) (f : ℕ → ℚ) (c : ℚ)
    (h : ∀ j ∈ l, f j ≤ c) : (l.map f).sum ≤ (l.length : ℚ) * c := by
  induction l with
  | nil => simp
  | cons a l ih =>
      simp only [List.map_cons, List.sum_cons, List.length_cons]
      have h1 := h a (List.mem_cons_self a l)
      have h2 := ih fun j hj => h j (List.mem_cons_of_mem a hj)
      push_cast
      linarith

lemma head_weighted_error (rest : List ℕ) (w v : ℕ → ℚ) (i : ℕ) (lo hi : ℚ)
    (hwi : 0 < w i) (hwr : ∀ j ∈ rest, 0 < w j)
    (hvi : lo ≤ v i ∧ v i ≤ hi) (hvr : ∀ j ∈ rest, lo ≤ v j ∧ v j ≤ hi) :
    |(((i :: rest).map fun j => w j * v j).sum / ((i :: rest).map w).sum) - v i| ≤
      ((rest.map w).sum / w i) * (hi - lo) := by
  have hA0 : 0 ≤ (rest.map w).sum := by
    apply List.sum_nonneg
    intro x hx
    obtain ⟨j, hj, rfl⟩ := List.mem_map.mp hx
    exact (hwr j hj).le
  have hW : 0 < w i + (rest.map w).sum := by linarith
  have hrange : 0 ≤ hi - lo := by linarith [hvi.1, hvi.2]
  have h1 : (rest.map fun j => w j * (v j - v i)).sum =
      (rest.map fun j => w j * v j).sum - (rest.map w).sum * v i := by
    rw [show (fun j => w j * (v j - v i)) = fun j => w j * v j - w j * v i from
      funext fun j => by ring, sum_map_sub]
    congr 1
    exact List.sum_map_mul_right rest w (v i)
  have hupper : (rest.map fun j => w j * (v j - v i)).sum ≤
      (rest.map w).sum * (hi - lo) := by
    calc (rest.map fun j => w j * (v j - v i)).sum
        ≤ (rest.map fun j => w j * (hi - lo)).sum := by
          apply List.sum_le_sum
          intro j hj
          exact mul_le_mul_of_nonneg_left
            (by linarith [(hvr j hj).2, hvi.1]) (hwr j hj).le
      _ = (rest.map w).sum * (hi - lo) := List.sum_map_mul_right rest w _
  have hlower : -((rest.map w).sum * (hi - lo)) ≤
      (rest.map fun j => w j * (v j - v i)).sum := by
    calc -((rest.map w).sum * (hi - lo))
        = (rest.map w).sum * (lo - hi) := by ring
      _ = (rest.map fun j => w j * (lo - hi)).sum :=
          (List.sum_map_mul_right rest w _).symm
      _ ≤ (rest.map fun j => w j * (v j - v i)).sum := by
          apply List.sum_le_sum
          intro j hj
          exact mul_le_mul_of_nonneg_left
            (by linarith [(hvr j hj).1, hvi.2]) (hwr j hj).le
  have habs : |(rest.map fun j => w j * (v j - v i)).sum| ≤
      (rest.map w).sum * (hi - lo) := abs_le.mpr ⟨hlower, hupper⟩
  have hE : ((i :: rest).map fun j => w j * v j).sum / ((i :: rest).map w).sum
        - v i =
      (rest.map fun j => w j * (v j - v i)).sum /
        (w i + (rest.map w).sum) := by
    simp only [List.map_cons, List.sum_cons]
    rw [h1]
    field_simp
    ring
  rw [hE, abs_div, abs_of_pos hW]
  calc |(rest.map fun j => w j * (v j - v i)).sum| / (w i + (rest.map w).sum)
      = |(rest.map fun j => w j * (v j - v i)).sum| *
          (1 / (w i + (rest.map w).sum)) := by
        rw [div_eq_mul_one_div]
    _ ≤ ((rest.map w).sum * (hi - lo)) * (1 / w i) := by
        apply mul_le_mul habs
          (one_div_le_one_div_of_le hwi (by linarith))
          (one_div_pos.mpr hW).le
          (mul_nonneg hA0 hrange)
    _ = ((rest.map w).sum / w i) * (hi - lo) := by ring

/-- C3: predicting at a fitted point that has no coincident duplicate (all
other fitted points lie at squared distance at least δ > 0) returns a value
within an explicit numerical tolerance of that point's value: the error is
at most (k - 1) * (ε² / δ)^halfPower * (hi - lo), where k is the retrieved
neighbour count min(max_neighbors, n), ε = 1e-10 is the distance guard, and
[lo, hi] encloses the fitted values — the claim's "numerical tolerance" made
quantitative (about 1e-20 / δ per neighbour for the default power 2). -/
theorem c3_idw_exactness (halfPower kmax : ℕ) (pts : List (ℚ × ℚ))
    (vals : List ℚ) (i : ℕ) (lo hi δ : ℚ)
    (hlen : pts.length = vals.length) (hiL : i < pts.length) (hk : 1 ≤ kmax)
    (hδ : 0 < δ)
    (hsep : ∀ j, j < pts.length → j ≠ i →
      δ ≤ sqDist (pts.getD i (0, 0)) (pts.getD j (0, 0)))
    (hlo : ∀ v ∈ vals, lo ≤ v) (hhi : ∀ v ∈ vals, v ≤ hi) :
    |predictPoint halfPower kmax pts vals (pts.getD i (0, 0)) - vals.getD i 0| ≤
      ((min kmax vals.length - 1 : ℕ) : ℚ) *
        (epsSq ^ halfPower / δ ^ halfPower) * (hi - lo) := by
  obtain ⟨t, hS⟩ := nearestIndices_head pts i δ hiL hδ hsep
  have hvlen : i < vals.length := by omega
  have hkpos : 1 ≤ min kmax vals.length := by omega
  have hkle : min kmax vals.length ≤ pts.length := by omega
  have htlen : t.length = pts.length - 1 := by
    have hL := nearestIndices_length pts (pts.getD i (0, 0))
    rw [hS] at hL
    simp only [List.length_cons] at hL
    omega
  have hsel : (nearestIndices pts (pts.getD i (0, 0))).take
      (min kmax vals.length) = i :: t.take (min kmax vals.length - 1) := by
    rw [hS, show min kmax vals.length = (min kmax vals.length - 1) + 1 from
      by omega, List.take_succ_cons]
    norm_num
  have hrestlen : (t.take (min kmax vals.length - 1)).length =
      min kmax vals.length - 1 := by
    rw [List.length_take]
    omega
  have hrest_mem : ∀ j ∈ t.take (min kmax vals.length - 1),
      j < pts.length ∧ j ≠ i := by
    intro j hj
    have hjt : j ∈ t := List.take_subset _ _ hj
    have hjS : j ∈ nearestIndices pts (pts.getD i (0, 0)) := by
      rw [hS]
      exact List.mem_cons_of_mem i hjt
    have hnd := nearestIndices_nodup pts (pts.getD i (0, 0))
    rw [hS] at hnd
    have hnit : i ∉ t := (List.nodup_cons.mp hnd).1
    exact ⟨mem_nearestIndices.mp hjS, fun hc => hnit (hc ▸ hjt)⟩
  have hvbound : ∀ j, j < vals.length → lo ≤ vals.getD j 0 ∧ vals.getD j 0 ≤ hi := by
    intro j hj
    rw [List.getD_eq_getElem vals 0 hj]
    exact ⟨hlo _ (List.getElem_mem hj), hhi _ (List.getElem_mem hj)⟩
  have hrange : 0 ≤ hi - lo := by
    have := hvbound i hvlen
    linarith [this.1, this.2]
  have hwi_eq : idwWeight halfPower
      (sqDist (pts.getD i (0, 0)) (pts.getD i (0, 0))) = 1 / epsSq ^ halfPower := by
    rw [sqDist_self, idwWeight_zero]
  have hA : ((t.take (min kmax vals.length - 1)).map fun j =>
      idwWeight halfPower (sqDist (pts.getD i (0, 0)) (pts.getD j (0, 0)))).sum ≤
      ((min kmax vals.length - 1 : ℕ) : ℚ) * (1 / δ ^ halfPower) := by
    have := sum_map_le_length_mul (t.take (min kmax vals.length - 1))
      (fun j => idwWeight halfPower (sqDist (pts.getD i (0, 0)) (pts.getD j (0, 0))))
      (1 / δ ^ halfPower)
      (fun j hj => idwWeight_le halfPower hδ
        (hsep j (hrest_mem j hj).1 (hrest_mem j hj).2))
    rwa [hrestlen] at this
  have hfinal : (((t.take (min kmax vals.length - 1)).map fun j =>
        idwWeight halfPower (sqDist (pts.getD i (0, 0)) (pts.getD j (0, 0)))).sum /
        idwWeight halfPower (sqDist (pts.getD i (0, 0)) (pts.getD i (0, 0)))) *
        (hi - lo) ≤
      ((min kmax vals.length - 1 : ℕ) : ℚ) *
        (epsSq ^ halfPower / δ ^ halfPower) * (hi - lo) := by
    apply mul_le_mul_of_nonneg_right _ hrange
    rw [hwi_eq, one_div, div_inv_eq_mul]
    calc (((t.take (min kmax vals.length - 1)).map fun j =>
          idwWeight halfPower (sqDist (pts.getD i (0, 0)) (pts.getD j (0, 0)))).sum) *
          epsSq ^ halfPower ≤
        (((min kmax vals.length - 1 : ℕ) : ℚ) * (1 / δ ^ halfPower)) *
          epsSq ^ halfPower :=
        mul_le_mul_of_nonneg_right hA (pow_nonneg epsSq_pos.le halfPower)
      _ = ((min kmax vals.length - 1 : ℕ) : ℚ) *
          (epsSq ^ halfPower / δ ^ halfPower) := by ring
  calc |predictPoint halfPower kmax pts vals (pts.getD i (0, 0)) - vals.getD i 0|
      = |(((i :: t.take (min kmax vals.length - 1)).map fun j =>
            idwWeight halfPower (sqDist (pts.getD i (0, 0)) (pts.getD j (0, 0))) *
              vals.getD j 0).sum /
          ((i :: t.take (min kmax vals.length - 1)).map fun j =>
            idwWeight halfPower
              (sqDist (pts.getD i (0, 0)) (pts.getD j (0, 0)))).sum) -
          vals.getD i 0| := by
        simp only [predictPoint]
        rw [hsel]
    _ ≤ (((t.take (min kmax vals.length - 1)).map fun j =>
          idwWeight halfPower (sqDist (pts.getD i (0, 0)) (pts.getD j (0, 0)))).sum /
          idwWeight halfPower (sqDist (pts.getD i (0, 0)) (pts.getD i (0, 0)))) *
          (hi - lo) :=
        head_weighted_error _ _ _ i lo hi (idwWeight_pos _ _)
          (fun j _ => idwWeight_pos _ _) (hvbound i hvlen)
          (fun j hj => hvbound j (by
            have := (hrest_mem j hj).1
            omega))
    _ ≤ ((min kmax vals.length - 1 : ℕ) : ℚ) *
          (epsSq ^ halfPower / δ ^ halfPower) * (hi - lo) := hfinal

/-- C3 witness: the exactness theorem applied to two fitted points one unit
apart, queried at the first point: the prediction is within 1e-19 of the
fitted value 10. -/
theorem c3_idw_exactness_witness :
    ((0 : ℚ) < 1 ∧
        (∀ j, j < ([(0, 0), (1, 0)] : List (ℚ × ℚ)).length → j ≠ 0 →
          (1 : ℚ) ≤ sqDist (([(0, 0), (1, 0)] : List (ℚ × ℚ)).getD 0 (0, 0))
            (([(0, 0), (1, 0)] : List (ℚ × ℚ)).getD j (0, 0)))) ∧
      |predictPoint 1 2 [(0, 0), (1, 0)] [10, 20]
          (([(0, 0), (1, 0)] : List (ℚ × ℚ)).getD 0 (0, 0)) -
        ([10, 20] : List ℚ).getD 0 0| ≤
        ((min 2 ([10, 20] : List ℚ).length - 1 : ℕ) : ℚ) *
          (epsSq ^ 1 / 1 ^ 1) * (20 - 10) := by
  have hsep : ∀ j, j < ([(0, 0), (1, 0)] : List (ℚ × ℚ)).length → j ≠ 0 →
      (1 : ℚ) ≤ sqDist (([(0, 0), (1, 0)] : List (ℚ × ℚ)).getD 0 (0, 0))
        (([(0, 0), (1, 0)] : List (ℚ × ℚ)).getD j (0, 0)) := by
    intro j hj hne
    have hj2 : j < 2 := by simpa using hj
    have hj1 : j = 1 := by omega
    subst hj1
    norm_num [sqDist]
  exact ⟨⟨by norm_num, hsep⟩,
    c3_idw_exactness 1 2 [(0, 0), (1, 0)] [10, 20] 0 10 20 1 rfl
      (by norm_num) (by norm_num) (by norm_num) hsep
      (by norm_num) (by norm_num)⟩
